import Mathlib

/-!
Verification development for the Universalis API wrapper
(`src/universalis/__init__.py`): a shallow embedding of the rate-limited
request gateway, the schema normalizer (`_pep8_key_name`), the record
builders (`CurrentData`, `CurrentDataEntries`, `HistoryData`,
`HistoryDataEntries`) and the facade's bulk-query URL construction,
together with theorems settling the specification's claims.

Conventions of the embedding:
* Python values are modelled by `PyVal`; `datetime` objects are carried as
  their epoch value (a rational), floats as rationals, and machine time as
  rational milliseconds.
* A Python instance's `__dict__` is an insertion-ordered association list
  (`Record`); `setField` models attribute assignment (overwrite in place,
  else append) and `lookupField` models the lookup.
* Strings inside the normalizer are lists of code points (`List Nat`),
  with the ASCII case rules of `str.isupper` / `str.lower` (every key of
  the external schema is ASCII).
-/

/-- A Python value as it occurs in decoded Universalis JSON payloads and on
the wrapper's record objects.  `vdt t` is a `datetime` carried as its epoch
timestamp (seconds, rational); `vfloat` carries a float as a rational. -/
inductive PyVal where
  | vnone
  | vbool (b : Bool)
  | vint (n : Int)
  | vfloat (q : ℚ)
  | vstr (s : String)
  | vdt (t : ℚ)
  | vlist (xs : List PyVal)
  | vdict (xs : List (String × PyVal))

/-- Python `isinstance(value, int)` — Python's `bool` is a subclass of `int`. -/
def pyIsInt : PyVal → Bool
  | .vint _ => true
  | .vbool _ => true
  | _ => false

/-- Python `bool(value)` applied to a Python `int`/`bool` (the only shapes the
builders guard with `isinstance(value, int)` before coercing). -/
def pyBoolOf : PyVal → PyVal
  | .vint n => .vbool (decide (n ≠ 0))
  | .vbool b => .vbool b
  | v => v

/-- Python `isinstance(entry, dict)` as an `Option` projection. -/
def pyAsDict : PyVal → Option (List (String × PyVal))
  | .vdict d => some d
  | _ => none

mutual
/-- Python `==` restricted to the value shapes of this embedding:
numeric cross-type equality (`True == 1`, `1 == 1.0`), structural equality
on strings and datetimes, elementwise on lists.  Dict equality is modelled
order-sensitively (Python's is order-insensitive); no theorem below ever
compares dict values. -/
def pyEqVal : PyVal → PyVal → Bool
  | .vnone, .vnone => true
  | .vbool x, .vbool y => decide (x = y)
  | .vbool x, .vint n => decide ((if x then (1 : Int) else 0) = n)
  | .vint n, .vbool y => decide (n = (if y then (1 : Int) else 0))
  | .vbool x, .vfloat q => decide ((if x then (1 : ℚ) else 0) = q)
  | .vfloat q, .vbool y => decide (q = (if y then (1 : ℚ) else 0))
  | .vint n, .vint m => decide (n = m)
  | .vint n, .vfloat q => decide ((n : ℚ) = q)
  | .vfloat q, .vint n => decide (q = (n : ℚ))
  | .vfloat p, .vfloat q => decide (p = q)
  | .vstr s, .vstr t => decide (s = t)
  | .vdt x, .vdt y => decide (x = y)
  | .vlist xs, .vlist ys => pyEqList xs ys
  | .vdict xs, .vdict ys => pyEqDict xs ys
  | _, _ => false

/-- Elementwise Python `==` on lists. -/
def pyEqList : List PyVal → List PyVal → Bool
  | [], [] => true
  | a :: as, b :: bs => pyEqVal a b && pyEqList as bs
  | _, _ => false

/-- Entrywise Python `==` on dict items (order-sensitive model, see
`pyEqVal`). -/
def pyEqDict : List (String × PyVal) → List (String × PyVal) → Bool
  | [], [] => true
  | (k, a) :: as, (k2, b) :: bs => decide (k = k2) && pyEqVal a b && pyEqDict as bs
  | _, _ => false
end

/-- An instance `__dict__`: insertion-ordered attribute store. -/
abbrev Record := List (String × PyVal)

/-- Attribute lookup in an instance `__dict__`. -/
def lookupField : Record → String → Option PyVal
  | [], _ => none
  | (k, v) :: rest, key => if k = key then some v else lookupField rest key

/-- Attribute assignment: overwrite the existing binding in place, else
append (CPython dict insertion-order semantics). -/
def setField : Record → String → PyVal → Record
  | [], key, v => [(key, v)]
  | (k, w) :: rest, key, v =>
      if k = key then (key, v) :: rest else (k, w) :: setField rest key v

/-! ## Schema normalizer (`UniversalisAPI._pep8_key_name`)

Keys are lists of code points.  `isUpperN` / `toLowerN` are the ASCII case
rules of `str.isupper` / `str.lower` (all keys of the external schema are
ASCII). -/

/-- ASCII model of `str.isupper` on a single code point. -/
def isUpperN (c : Nat) : Bool := decide (65 ≤ c) && decide (c ≤ 90)

/-- ASCII model of `str.lower` on a single code point. -/
def toLowerN (c : Nat) : Nat := if isUpperN c then c + 32 else c

/-- Code points of a literal ASCII string (used to write the substitution
table the way the source writes it). -/
def strCodes (s : String) : List Nat := s.data.map Char.toNat

/-- Whether `pat` occurs at the very start of the second list (Python's
startswith, used to express `str.replace` and the `in` containment test). -/
def leadsWith : List Nat → List Nat → Bool
  | [], _ => true
  | _ :: _, [] => false
  | a :: as, b :: bs => decide (a = b) && leadsWith as bs

/-- Python's substring containment `pat in s` (the empty pattern is
contained in every string). -/
def isSubList (pat : List Nat) : List Nat → Bool
  | [] => leadsWith pat []
  | c :: rest => leadsWith pat (c :: rest) || isSubList pat rest

/-- Python `s.replace(pat, repl)`: replace every non-overlapping occurrence
left to right.  (A guard keeps the empty pattern from looping; the source
only ever substitutes the nonempty keys of `PRE_FORMATTED_KEYS`.) -/
def replaceAll (pat repl : List Nat) (s : List Nat) : List Nat :=
  match s with
  | [] => []
  | c :: rest =>
      if _h : 0 < pat.length ∧ leadsWith pat (c :: rest) = true then
        repl ++ replaceAll pat repl (List.drop pat.length (c :: rest))
      else
        c :: replaceAll pat repl rest
termination_by s.length
decreasing_by
  · simp only [List.length_drop, List.length_cons]
    omega
  · simp only [List.length_cons]
    omega

/-- The substitution loop of `_pep8_key_name`: for each table entry in
order, if the key occurs in the name, replace every occurrence. -/
def applySubst (tbl : List (List Nat × List Nat)) (k : List Nat) : List Nat :=
  tbl.foldl (fun acc p => if isSubList p.1 acc then replaceAll p.1 p.2 acc else acc) k

/-- The case-folding pass applied to every character after the first:
an underscore is inserted before each uppercase letter, which is then
lowercased; every other character is copied. -/
def foldTail : List Nat → List Nat
  | [] => []
  | c :: rest => if isUpperN c then 95 :: toLowerN c :: foldTail rest else c :: foldTail rest

/-- The case-folding pass of `_pep8_key_name`: the first character is
lowercased without a leading underscore, the rest goes through
`foldTail`. -/
def foldCase : List Nat → List Nat
  | [] => []
  | c :: rest => toLowerN c :: foldTail rest

/-- The table `PRE_FORMATTED_KEYS` in its insertion order:
`"HQ" -> "_hq"`, `"ID" -> "_id"`, `"NQ" -> "_nq"`. -/
def preFormattedKeysN : List (List Nat × List Nat) :=
  [(strCodes "HQ", strCodes "_hq"),
   (strCodes "ID", strCodes "_id"),
   (strCodes "NQ", strCodes "_nq")]

/-- The classmethod `UniversalisAPI._pep8_key_name`: return ignored keys unchanged, else
run the substitution table and then the case-folding pass. -/
def pep8KeyName (ignored : List (List Nat)) (tbl : List (List Nat × List Nat))
    (k : List Nat) : List Nat :=
  if k ∈ ignored then k else foldCase (applySubst tbl k)

/-- The normalizer `_pep8_key_name` with its default arguments (`IGNORED_KEYS = []`,
`PRE_FORMATTED_KEYS` as above) — the form every record builder calls. -/
def pep8Default (k : List Nat) : List Nat := pep8KeyName [] preFormattedKeysN k

/-- The key normalizer lifted back to `String`, as used by the record
builders on each incoming payload key. -/
def mangleKey (s : String) : String :=
  String.mk ((pep8Default (s.data.map Char.toNat)).map Char.ofNat)

/-! ## Timestamp coercion

`datetime.fromtimestamp` is modelled as a partial identity on rational
epoch values: it succeeds exactly when the resulting datetime lies in
CPython's representable range `[datetime.min, datetime.max]`
(`ValueError`/`OverflowError` otherwise; the UTC bound is used, local
offsets are not modelled). -/

/-- Whether a rational epoch value is representable by CPython's
`datetime` (years 1 through 9999). -/
def tsInRange (q : ℚ) : Bool := decide (-62135596800 ≤ q) && decide (q < 253402300800)

/-- CPython `datetime.fromtimestamp`: `some` of the epoch value when representable,
`none` for the raised exception. -/
def fromtimestampOpt (q : ℚ) : Option ℚ := if tsInRange q then some q else none

/-- The `HistoryDataEntries.timestamp` setter: an `int` (or `bool`, a
Python `int` subclass) is converted as seconds-since-epoch, the raw integer
is kept on conversion failure; any other value is left unassigned (the
`isinstance(value, int)` guard makes the setter a no-op). -/
def timestampSet (r : Record) (v : PyVal) : Record :=
  match v with
  | .vint n =>
      match fromtimestampOpt (n : ℚ) with
      | some d => setField r "_timestamp" (.vdt d)
      | none => setField r "_timestamp" (.vint n)
  | .vbool b =>
      match fromtimestampOpt (if b then 1 else 0) with
      | some d => setField r "_timestamp" (.vdt d)
      | none => setField r "_timestamp" (.vint (if b then 1 else 0))
  | _ => r

/-- The `CurrentDataEntries.last_review_time` setter (same rule as
`timestampSet`, targeting `_last_review_time`). -/
def lastReviewTimeSet (r : Record) (v : PyVal) : Record :=
  match v with
  | .vint n =>
      match fromtimestampOpt (n : ℚ) with
      | some d => setField r "_last_review_time" (.vdt d)
      | none => setField r "_last_review_time" (.vint n)
  | .vbool b =>
      match fromtimestampOpt (if b then 1 else 0) with
      | some d => setField r "_last_review_time" (.vdt d)
      | none => setField r "_last_review_time" (.vint (if b then 1 else 0))
  | _ => r

/-- The `GenericData.last_upload_time` setter: the incoming integer is in
milliseconds, so it is divided by 1000 (Python true division) before the
conversion; the raw integer is kept on conversion failure; non-`int`
values are left unassigned. -/
def lastUploadTimeSet (r : Record) (v : PyVal) : Record :=
  match v with
  | .vint n =>
      match fromtimestampOpt ((n : ℚ) / 1000) with
      | some d => setField r "_last_upload_time" (.vdt d)
      | none => setField r "_last_upload_time" (.vint n)
  | .vbool b =>
      match fromtimestampOpt ((if b then 1 else 0 : ℚ) / 1000) with
      | some d => setField r "_last_upload_time" (.vdt d)
      | none => setField r "_last_upload_time" (.vint (if b then 1 else 0))
  | _ => r

/-! ## Entry builders and comparisons -/

/-- The constructor `Generic.__init__`: the instance dict starts with `_raw` (the input
mapping) and `_universalis` (the captured process-global client, modelled
as `vnone` here; the registry dynamics themselves are modelled separately
below). -/
def genericInit (d : List (String × PyVal)) : Record :=
  [("_raw", .vdict d), ("_universalis", .vnone)]

/-- The constructor `CurrentDataEntries.__init__`: normalize each key; coerce
`on_mannequin` / `is_crafted` / `hq` integer values to `bool`; route
`last_review_time` through its property setter; store everything else
verbatim. -/
def buildCurrentEntry (d : List (String × PyVal)) : Record :=
  d.foldl
    (fun r kv =>
      let key := mangleKey kv.1
      if (key = "on_mannequin" ∨ key = "is_crafted" ∨ key = "hq") ∧ pyIsInt kv.2 then
        setField r key (pyBoolOf kv.2)
      else if key = "last_review_time" then lastReviewTimeSet r kv.2
      else setField r key kv.2)
    (genericInit d)

/-- The constructor `HistoryDataEntries.__init__`: sets `_repr_keys`, coerces
`hq` / `on_mannequin` integers to `bool`, routes `timestamp` through its
property setter, stores everything else verbatim. -/
def buildHistoryEntry (d : List (String × PyVal)) : Record :=
  d.foldl
    (fun r kv =>
      let key := mangleKey kv.1
      if (key = "hq" ∨ key = "on_mannequin") ∧ pyIsInt kv.2 then
        setField r key (pyBoolOf kv.2)
      else if key = "timestamp" then timestampSet r kv.2
      else setField r key kv.2)
    (genericInit d ++
      [("_repr_keys", .vlist [.vstr "hq", .vstr "quantity", .vstr "price_per_unit",
        .vstr "world_name", .vstr "timestamp"])])

/-- The method `CurrentDataEntries.__eq__`: same class and `self.hq == other.hq`.
(When `hq` was never populated CPython would raise `AttributeError` while
reading it; the theorems below only compare entries that populate it.) -/
def currentEq (a b : Record) : Bool :=
  match lookupField a "hq", lookupField b "hq" with
  | some x, some y => pyEqVal x y
  | _, _ => false

/-- The conjunction `isinstance(u, datetime) and isinstance(v, datetime)
and u < v` shared by both `__lt__` methods, applied to the two (possibly
absent) stored time fields. -/
def bothDtLt (oa ob : Option PyVal) : Bool :=
  match oa, ob with
  | some (.vdt ta), some (.vdt tb) => decide (ta < tb)
  | _, _ => false

/-- The method `CurrentDataEntries.__lt__`: `hq` flags equal, both review times are
`datetime`s, and the first is strictly earlier; every other combination is
`False`. -/
def currentLt (a b : Record) : Bool :=
  match lookupField a "hq", lookupField b "hq" with
  | some x, some y =>
      pyEqVal x y &&
        bothDtLt (lookupField a "_last_review_time") (lookupField b "_last_review_time")
  | _, _ => false

/-- The method `HistoryDataEntries.__eq__`: same class, `hq` flags equal and
`price_per_unit` equal. -/
def historyEq (a b : Record) : Bool :=
  match lookupField a "hq", lookupField b "hq" with
  | some x, some y =>
      pyEqVal x y &&
        match lookupField a "price_per_unit", lookupField b "price_per_unit" with
        | some p, some q => pyEqVal p q
        | _, _ => false
  | _, _ => false

/-- The method `HistoryDataEntries.__lt__`: `hq` flags equal, both timestamps are
`datetime`s, and the first is strictly earlier; everything else is
`False`. -/
def historyLt (a b : Record) : Bool :=
  match lookupField a "hq", lookupField b "hq" with
  | some x, some y =>
      pyEqVal x y && bothDtLt (lookupField a "_timestamp") (lookupField b "_timestamp")
  | _, _ => false

/-! ## CPython's sort (`sorted` / `list.sort`), sub-64-element regime

`sorted` compares with `__lt__` only.  For fewer than 64 elements CPython
sets `minrun = n`, so Timsort never merges: the whole sort is exactly (1)
detect the initial run — ascending while `not (a[i] < a[i-1])`, or
strictly descending while `a[i] < a[i-1]`, a descending run being reversed
in place — and (2) extend it over the rest of the list by binary insertion
(`binarysort`), whose probe sequence is mirrored here exactly
(`p = l + (r - l) / 2`, move `r` down on `pivot < a[p]`, else move `l`
past `p`).  The entry comparators are not strict weak orders (entries with
differing hq flags are incomparable), so the probe-exact model is needed
to track CPython's actual output: in particular the result is NOT stable
for incomparable elements.  The claim theorems below are asserted for
payloads of fewer than 64 entries, the regime where this model and the
program coincide; the model was differentially validated against CPython
3.11 `sorted` on that regime. -/

/-- The binary search of CPython's `binarysort`: returns the insertion
index for `pivot` within the sorted prefix `pre`, probing exactly the
positions CPython probes (`p = l + (r - l) / 2`; `r := p` when
`pivot < a[p]`, else `l := p + 1`).  The extra `fuel` argument only bounds
the iteration count so the function is structurally recursive (hence
kernel-computable): each step strictly shrinks `r - l`, so any
`fuel ≥ r - l` — callers pass `pre.length` — never runs out. -/
def binInsertPos (lt : Record → Record → Bool) (pivot : Record) (pre : List Record) :
    Nat → Nat → Nat → Nat
  | 0, l, _ => l
  | fuel + 1, l, r =>
      if l < r then
        if lt pivot (pre.getD (l + (r - l) / 2) []) then
          binInsertPos lt pivot pre fuel l (l + (r - l) / 2)
        else
          binInsertPos lt pivot pre fuel (l + (r - l) / 2 + 1) r
      else l

/-- The insertion loop of CPython's `binarysort`: each remaining element
is inserted into the sorted prefix at its binary-search position. -/
def binarysortAux (lt : Record → Record → Bool) : List Record → List Record → List Record
  | pre, [] => pre
  | pre, pivot :: rest =>
      binarysortAux lt
        (pre.take (binInsertPos lt pivot pre pre.length 0 pre.length) ++
          pivot :: pre.drop (binInsertPos lt pivot pre pre.length 0 pre.length)) rest

/-- The ascending-run extension of CPython's `count_run`: keep taking
elements while `not (next < prev)`. -/
def takeRunAsc (lt : Record → Record → Bool) : Record → List Record → List Record × List Record
  | _, [] => ([], [])
  | prev, x :: xs =>
      if lt x prev then ([], x :: xs)
      else (x :: (takeRunAsc lt x xs).1, (takeRunAsc lt x xs).2)

/-- The strictly-descending-run extension of CPython's `count_run`: keep
taking elements while `next < prev`. -/
def takeRunDesc (lt : Record → Record → Bool) : Record → List Record → List Record × List Record
  | _, [] => ([], [])
  | prev, x :: xs =>
      if lt x prev then (x :: (takeRunDesc lt x xs).1, (takeRunDesc lt x xs).2)
      else ([], x :: xs)

/-- CPython `sorted(l)` under comparator `lt`, exact for `l.length < 64`
(run detection, descending-run reversal, then binary insertion; the merge
phase never runs below the minrun threshold of 64). -/
def cpySorted (lt : Record → Record → Bool) : List Record → List Record
  | [] => []
  | [x] => [x]
  | x0 :: x1 :: rest =>
      if lt x1 x0 then
        binarysortAux lt (x0 :: x1 :: (takeRunDesc lt x1 rest).1).reverse
          (takeRunDesc lt x1 rest).2
      else
        binarysortAux lt (x0 :: x1 :: (takeRunAsc lt x1 rest).1)
          (takeRunAsc lt x1 rest).2

/-! ## Aggregate builders (`CurrentData`, `HistoryData`) -/

/-- The `CurrentData.listings` setter: each mapping element is built into a
`CurrentDataEntries` (non-mapping elements dropped), and the result is
stored sorted by the entry comparator at assignment time. -/
def listingsAssign (xs : List PyVal) : List Record :=
  cpySorted currentLt ((xs.filterMap pyAsDict).map buildCurrentEntry)

/-- The `CurrentData.recent_history` setter: mapping elements become
`HistoryDataEntries`, sorted at assignment time. -/
def recentHistoryAssign (xs : List PyVal) : List Record :=
  cpySorted historyLt ((xs.filterMap pyAsDict).map buildHistoryEntry)

/-- The `HistoryData.entries` setter: mapping elements become
`HistoryDataEntries`; the stored list is NOT sorted. -/
def historyEntriesAssign (xs : List PyVal) : List Record :=
  (xs.filterMap pyAsDict).map buildHistoryEntry

/-- The `HistoryData.entries` getter: `sorted(self._entries)` — a freshly
sorted copy on every read; the stored list is not touched (`sorted` builds
a new list). -/
def historyEntriesGet (stored : List Record) : List Record :=
  cpySorted historyLt stored

/-- A `CurrentData` instance: plain attributes plus the two entry-list
slots (`_listings`, `_recent_history`), which hold built entry records
rather than `PyVal`s. -/
structure CurrentRec where
  fields : Record
  listingsF : Option (List Record)
  recentHistoryF : Option (List Record)

/-- A `HistoryData` instance: plain attributes plus the `_entries` slot. -/
structure HistoryRec where
  fields : Record
  entriesF : Option (List Record)

/-- The constructor `CurrentData.__init__`: normalize each key; a list under `listings`
goes through the sorting setter, `recent_history` likewise (via the plain
`setattr` hitting the property), `has_data` integers become `bool`,
`last_upload_time` goes through its converting setter, everything else is
stored verbatim.  (A non-list value under `listings`/`recent_history`
would make the CPython setter raise while iterating; that path stores the
raw value here and is never exercised below.) -/
def buildCurrentData (d : List (String × PyVal)) : CurrentRec :=
  d.foldl
    (fun r kv =>
      let key := mangleKey kv.1
      if key = "listings" then
        match kv.2 with
        | .vlist xs => { r with listingsF := some (listingsAssign xs) }
        | v => { r with fields := setField r.fields key v }
      else if key = "recent_history" then
        match kv.2 with
        | .vlist xs => { r with recentHistoryF := some (recentHistoryAssign xs) }
        | v => { r with fields := setField r.fields key v }
      else if key = "has_data" ∧ pyIsInt kv.2 then
        { r with fields := setField r.fields key (pyBoolOf kv.2) }
      else if key = "last_upload_time" then
        { r with fields := lastUploadTimeSet r.fields kv.2 }
      else { r with fields := setField r.fields key kv.2 })
    { fields := genericInit d, listingsF := none, recentHistoryF := none }

/-- The constructor `HistoryData.__init__`: sets `_repr_keys`; a list under `entries`
reaches the (non-sorting) setter whatever its length — the `len(value) > 1`
branch assigns the property and the `else` branch's `setattr` invokes the
very same setter; `last_upload_time` converts; the rest is stored
verbatim. -/
def buildHistoryData (d : List (String × PyVal)) : HistoryRec :=
  d.foldl
    (fun r kv =>
      let key := mangleKey kv.1
      if key = "entries" then
        match kv.2 with
        | .vlist xs => { r with entriesF := some (historyEntriesAssign xs) }
        | v => { r with fields := setField r.fields key v }
      else if key = "last_upload_time" then
        { r with fields := lastUploadTimeSet r.fields kv.2 }
      else { r with fields := setField r.fields key kv.2 })
    { fields := genericInit d ++
        [("_repr_keys", .vlist [.vstr "item_id", .vstr "world_name",
          .vstr "dc_name", .vstr "entries"])],
      entriesF := none }

/-! ## Attribute access

`GenericData.__getattribute__` turns `AttributeError` into `None`, so the
two aggregate classes yield `None` for absent attributes; the two entry
classes inherit plain `Generic` and raise.  (The `callable(name)` guard in
the source is dead: `callable` is `False` on every string.) -/

/-- Result of an attribute read: a plain value, a list of entry records
(the entry-list properties), or a raised exception (by type name). -/
inductive AttrResult where
  | val (v : PyVal)
  | entryList (l : List Record)
  | raised (exc : String)

/-- Attribute read on a `CurrentDataEntries` instance (class `Generic`, no
fallback): the `last_review_time` property reads `_last_review_time`;
anything absent raises `AttributeError`. -/
def currentEntryGetattr (r : Record) (name : String) : AttrResult :=
  if name = "last_review_time" then
    match lookupField r "_last_review_time" with
    | some v => .val v
    | none => .raised "AttributeError"
  else
    match lookupField r name with
    | some v => .val v
    | none => .raised "AttributeError"

/-- Attribute read on a `HistoryDataEntries` instance: the `timestamp`
property reads `_timestamp`; anything absent raises `AttributeError`. -/
def historyEntryGetattr (r : Record) (name : String) : AttrResult :=
  if name = "timestamp" then
    match lookupField r "_timestamp" with
    | some v => .val v
    | none => .raised "AttributeError"
  else
    match lookupField r name with
    | some v => .val v
    | none => .raised "AttributeError"

/-- Attribute read on a `CurrentData` instance: the entry-list properties
return their slot (`None` when never assigned, via the
`__getattribute__` fallback), `last_upload_time` reads
`_last_upload_time`, and any absent plain attribute yields `None`. -/
def currentDataGetattr (r : CurrentRec) (name : String) : AttrResult :=
  if name = "listings" then
    match r.listingsF with
    | some l => .entryList l
    | none => .val .vnone
  else if name = "recent_history" then
    match r.recentHistoryF with
    | some l => .entryList l
    | none => .val .vnone
  else if name = "last_upload_time" then
    .val ((lookupField r.fields "_last_upload_time").getD .vnone)
  else .val ((lookupField r.fields name).getD .vnone)

/-- Attribute read on a `HistoryData` instance: the `entries` getter
returns `sorted(self._entries)` — when `_entries` was never assigned the
fallback turns the inner read into `None` and `sorted(None)` raises
`TypeError` (which the fallback does NOT catch: it only catches
`AttributeError`); absent plain attributes yield `None`. -/
def historyDataGetattr (r : HistoryRec) (name : String) : AttrResult :=
  if name = "entries" then
    match r.entriesF with
    | some l => .entryList (historyEntriesGet l)
    | none => .raised "TypeError"
  else if name = "last_upload_time" then
    .val ((lookupField r.fields "_last_upload_time").getD .vnone)
  else .val ((lookupField r.fields name).getD .vnone)

/-! ## Rate-limited gateway (`UniversalisAPI._request`) -/

/-- The gateway state the claims are about: the last-call timestamp
(milliseconds, rational), the `max_api_calls` budget, and whether the lazy
`aiohttp` session exists yet. -/
structure GatewayState where
  apiCallTime : ℚ
  maxApiCalls : Int
  hasSession : Bool

/-- The throttle computation of `_request` (time in milliseconds):
`max_diff = 1000 / max_api_calls`; when the elapsed time since the last
recorded call is below it, sleep for the remainder plus the fixed 100 ms
margin, otherwise do not sleep. -/
def throttleSleepMs (maxApiCalls : Int) (lastCallTime curTime : ℚ) : ℚ :=
  let maxDiff : ℚ := 1000 / (maxApiCalls : ℚ)
  if curTime - lastCallTime < maxDiff then (maxDiff - (curTime - lastCallTime)) + 100 else 0

/-- The error raised by `_request` (a `ConnectionError` in the source),
carrying the HTTP status and the failing URL.  The three constructors are
the three textually distinct raise sites of the source: the bare non-200
message, the "invalid Parameters" message, and the "invalid World/DC or
Item ID" message. -/
inductive RequestFailure where
  | generic (status : Nat) (url : String)
  | invalidParams (status : Nat) (url : String)
  | invalidWorldItem (status : Nat) (url : String)

/-- The response-handling tail of `_request`, exactly as the source orders
it: create the session if absent, then `if status != 200` raise the
generic error, `elif status == 400` raise invalid-parameters,
`elif status == 404` raise invalid-world/item, else record
`api_call_time = datetime.now()` and return the decoded body. -/
def handleResponse (st : GatewayState) (url : String) (status : Nat) (respTime : ℚ)
    (body : PyVal) : GatewayState × Except RequestFailure PyVal :=
  let st1 : GatewayState := { st with hasSession := true }
  if status ≠ 200 then (st1, .error (.generic status url))
  else if status = 400 then (st1, .error (.invalidParams status url))
  else if status = 404 then (st1, .error (.invalidWorldItem status url))
  else ({ st1 with apiCallTime := respTime }, .ok body)

/-! ## Bulk query URL construction (`get_bulk_current_data`) -/

/-- Python `range(0, stop, step)` for positive `step`. -/
def pyRange0 (stop step : Nat) : List Nat :=
  (List.range ((stop + step - 1) / step)).map (· * step)

/-- Python `",".join(query)`. -/
def joinComma (query : List String) : String := String.intercalate "," query

/-- An item argument: the source accepts `int` or `str` IDs. -/
def sanitizeItems (items : List (Int ⊕ String)) : List String :=
  items.map (fun e => match e with | .inl n => toString n | .inr s => s)

/-- The facade method `get_bulk_current_data`: sanitize the IDs, then
`for i in range(0, len(query), 100)` build one URL per iteration — the
source joins the WHOLE `query` list into every URL (the loop index is
unused), appending the multi-item trim fields when requested.  Returns the
request URLs in order. -/
def getBulkCurrentDataUrls (base worldName : String) (items : List (Int ⊕ String))
    (numListings numEntries : Int) (hqVal : Int) (trim : Bool)
    (multiFields : String) : List String :=
  let query := sanitizeItems items
  (pyRange0 query.length 100).map (fun _i =>
    let url := base ++ "/" ++ worldName ++ "/" ++ joinComma query ++ "?listings=" ++
      toString numListings ++ "&entries=" ++ toString numEntries ++ "&hq=" ++ toString hqVal
    if trim then url ++ multiFields else url)

/-! ## The process-global client registry (`API_CLASS`) -/

/-- Construction events: a `UniversalisAPI.__init__` (which ends with
`global API_CLASS; API_CLASS = self`) or a `Generic.__init__` (which
captures `_get_global_api()` into `_universalis`). -/
inductive RegEvent where
  | mkClient
  | mkRecord
deriving DecidableEq

/-- Registry state: clients are numbered in construction order;
`registry` is `API_CLASS`; `records` lists, per constructed record, the
client reference captured in `_universalis` (`none` = Python `None`). -/
structure RegState where
  clientCount : Nat
  registry : Option Nat
  records : List (Option Nat)

/-- One construction step. -/
def stepReg (s : RegState) : RegEvent → RegState
  | .mkClient =>
      { clientCount := s.clientCount + 1, registry := some s.clientCount,
        records := s.records }
  | .mkRecord => { s with records := s.records ++ [s.registry] }

/-- The registry state after a sequence of constructions in a fresh
process (`API_CLASS = None` initially). -/
def runReg (evs : List RegEvent) : RegState :=
  evs.foldl stepReg { clientCount := 0, registry := none, records := [] }

/-! ## Spec-side predicates (for comparison against the source behavior) -/

/-- Modelled from the spec's words "sorted ascending by effective review
time": each entry's stored review time is a timestamp no later than its
successor's.  This is the property the specification asserts of the stored
`listings` list; it is compared against the source's behavior below. -/
def specAscByReviewTime : List Record → Bool
  | [] => true
  | [_] => true
  | a :: b :: rest =>
      (match lookupField a "_last_review_time", lookupField b "_last_review_time" with
       | some (.vdt x), some (.vdt y) => decide (x ≤ y)
       | _, _ => false) &&
      specAscByReviewTime (b :: rest)

/-- An eight-listing payload (hq flag, review time, quantity tag) on which
CPython's binary insertion reorders the two entries sharing hq `False` and
time 5 (tags 5 and 7): the probe path of the second never compares it with
the first.  Used to exhibit that the stored list is not stable for
incomparable-key entries. -/
def timsortProbePayload : List PyVal :=
  [.vdict [("hq", .vbool true), ("lastReviewTime", .vint 10), ("quantity", .vint 0)],
   .vdict [("hq", .vbool true), ("lastReviewTime", .vint 5), ("quantity", .vint 1)],
   .vdict [("hq", .vbool true), ("lastReviewTime", .vint 20), ("quantity", .vint 2)],
   .vdict [("hq", .vbool false), ("lastReviewTime", .vint 10), ("quantity", .vint 3)],
   .vdict [("hq", .vbool true), ("lastReviewTime", .vint 30), ("quantity", .vint 4)],
   .vdict [("hq", .vbool false), ("lastReviewTime", .vint 5), ("quantity", .vint 5)],
   .vdict [("hq", .vbool true), ("lastReviewTime", .vint 40), ("quantity", .vint 6)],
   .vdict [("hq", .vbool false), ("lastReviewTime", .vint 5), ("quantity", .vint 7)]]

/-! ## Helper lemmas about the record store -/

theorem lookupField_setField_self (r : Record) (k : String) (v : PyVal) :
    lookupField (setField r k v) k = some v := by
  induction r with
  | nil => simp [setField, lookupField]
  | cons p rest ih =>
      obtain ⟨k0, w⟩ := p
      by_cases h : k0 = k
      · simp [setField, lookupField, h]
      · simp [setField, lookupField, h, ih]

/-! ## Helper lemmas about the normalizer -/

theorem isUpperN_toLowerN (c : Nat) : isUpperN (toLowerN c) = false := by
  unfold toLowerN
  by_cases h : isUpperN c = true
  · simp only [h, if_true]
    simp only [isUpperN, Bool.and_eq_true, decide_eq_true_eq] at h ⊢
    simp only [Bool.and_eq_false_iff, decide_eq_false_iff_not]
    omega
  · simp only [h]
    simp only [Bool.false_eq_true, if_false]
    exact Bool.eq_false_iff.2 h

theorem foldTail_noUpper (l : List Nat) : ∀ c ∈ foldTail l, isUpperN c = false := by
  induction l with
  | nil => intro c hc; simp [foldTail] at hc
  | cons a rest ih =>
      intro c hc
      by_cases h : isUpperN a = true
      · simp only [foldTail, h, if_true, List.mem_cons] at hc
        rcases hc with h95 | hlow | hrest
        · subst h95; decide
        · subst hlow; exact isUpperN_toLowerN a
        · exact ih c hrest
      · simp only [foldTail, h] at hc
        simp only [Bool.false_eq_true, if_false, List.mem_cons] at hc
        rcases hc with rfl | hrest
        · exact Bool.eq_false_iff.2 h
        · exact ih c hrest

theorem foldCase_noUpper (l : List Nat) : ∀ c ∈ foldCase l, isUpperN c = false := by
  cases l with
  | nil => intro c hc; simp [foldCase] at hc
  | cons a rest =>
      intro c hc
      simp only [foldCase, List.mem_cons] at hc
      rcases hc with rfl | hrest
      · exact isUpperN_toLowerN a
      · exact foldTail_noUpper rest c hrest

theorem toLowerN_id_of_noUpper (c : Nat) (h : isUpperN c = false) : toLowerN c = c := by
  simp [toLowerN, h]

theorem foldTail_id_of_noUpper (l : List Nat) (h : ∀ c ∈ l, isUpperN c = false) :
    foldTail l = l := by
  induction l with
  | nil => rfl
  | cons a rest ih =>
      have ha : isUpperN a = false := h a (by simp)
      simp only [foldTail, ha, Bool.false_eq_true, if_false]
      rw [ih (fun c hc => h c (by simp [hc]))]

theorem foldCase_id_of_noUpper (l : List Nat) (h : ∀ c ∈ l, isUpperN c = false) :
    foldCase l = l := by
  cases l with
  | nil => rfl
  | cons a rest =>
      simp only [foldCase]
      rw [toLowerN_id_of_noUpper a (h a (by simp)),
        foldTail_id_of_noUpper rest (fun c hc => h c (by simp [hc]))]

theorem leadsWith_head_mem (h : Nat) (t l : List Nat)
    (hp : leadsWith (h :: t) l = true) : h ∈ l := by
  cases l with
  | nil => simp [leadsWith] at hp
  | cons b bs =>
      simp only [leadsWith, Bool.and_eq_true, decide_eq_true_eq] at hp
      simp [hp.1]

theorem isSubList_head_mem (h : Nat) (t : List Nat) :
    ∀ l : List Nat, isSubList (h :: t) l = true → h ∈ l := by
  intro l
  induction l with
  | nil => intro hs; simp [isSubList, leadsWith] at hs
  | cons c rest ih =>
      intro hs
      simp only [isSubList, Bool.or_eq_true] at hs
      rcases hs with hpre | hrec
      · exact leadsWith_head_mem h t (c :: rest) hpre
      · exact List.mem_cons_of_mem c (ih hrec)

theorem applySubst_id_of_noUpper (tbl : List (List Nat × List Nat)) (k : List Nat)
    (hk : ∀ c ∈ k, isUpperN c = false)
    (htbl : ∀ p ∈ tbl, ∃ h t, p.1 = h :: t ∧ isUpperN h = true) :
    applySubst tbl k = k := by
  induction tbl with
  | nil => rfl
  | cons p ps ih =>
      obtain ⟨h, t, hp1, hup⟩ := htbl p (by simp)
      have hguard : isSubList p.1 k = false := by
        rw [hp1]
        cases hs : isSubList (h :: t) k with
        | false => rfl
        | true =>
            have := hk h (isSubList_head_mem h t k hs)
            rw [hup] at this
            exact absurd this (by simp)
      show applySubst (p :: ps) k = k
      unfold applySubst
      simp only [List.foldl_cons, hguard, Bool.false_eq_true, if_false]
      exact ih (fun q hq => htbl q (by simp [hq]))

/-! ## Helper lemmas about the entry comparators -/

theorem bothDtLt_iff (oa ob : Option PyVal) :
    bothDtLt oa ob = true ↔
      ∃ ta tb : ℚ, oa = some (.vdt ta) ∧ ob = some (.vdt tb) ∧ ta < tb := by
  constructor
  · intro h
    unfold bothDtLt at h
    split at h
    · next ta tb => exact ⟨ta, tb, rfl, rfl, by simpa using h⟩
    · simp at h
  · rintro ⟨ta, tb, rfl, rfl, hlt⟩
    simp [bothDtLt, hlt]

theorem currentLt_times (a b : Record) (h : currentLt a b = true) :
    ∃ ta tb : ℚ, lookupField a "_last_review_time" = some (.vdt ta) ∧
      lookupField b "_last_review_time" = some (.vdt tb) ∧ ta < tb := by
  unfold currentLt at h
  split at h
  · simp only [Bool.and_eq_true] at h
    exact (bothDtLt_iff _ _).1 h.2
  · simp at h

theorem historyLt_times (a b : Record) (h : historyLt a b = true) :
    ∃ ta tb : ℚ, lookupField a "_timestamp" = some (.vdt ta) ∧
      lookupField b "_timestamp" = some (.vdt tb) ∧ ta < tb := by
  unfold historyLt at h
  split at h
  · simp only [Bool.and_eq_true] at h
    exact (bothDtLt_iff _ _).1 h.2
  · simp at h

theorem currentLt_antisymm (a b : Record) (h : currentLt a b = true) :
    currentLt b a = false := by
  cases hc : currentLt b a with
  | false => rfl
  | true =>
      obtain ⟨ta, tb, ha, hb, hlt⟩ := currentLt_times a b h
      obtain ⟨tb2, ta2, hb2, ha2, hlt2⟩ := currentLt_times b a hc
      rw [ha] at ha2
      rw [hb] at hb2
      obtain rfl : tb = tb2 := by injection hb2 with hv; injection hv
      obtain rfl : ta = ta2 := by injection ha2 with hv; injection hv
      exact absurd (hlt.trans hlt2) (lt_irrefl ta)

theorem historyLt_antisymm (a b : Record) (h : historyLt a b = true) :
    historyLt b a = false := by
  cases hc : historyLt b a with
  | false => rfl
  | true =>
      obtain ⟨ta, tb, ha, hb, hlt⟩ := historyLt_times a b h
      obtain ⟨tb2, ta2, hb2, ha2, hlt2⟩ := historyLt_times b a hc
      rw [ha] at ha2
      rw [hb] at hb2
      obtain rfl : tb = tb2 := by injection hb2 with hv; injection hv
      obtain rfl : ta = ta2 := by injection ha2 with hv; injection hv
      exact absurd (hlt.trans hlt2) (lt_irrefl ta)

/-! ## Helper lemmas about the sort model -/

theorem binInsertPos_spec (lt : Record → Record → Bool) (pivot : Record)
    (pre : List Record) :
    ∀ (fuel l r : Nat), r - l ≤ fuel → l ≤ r → r ≤ pre.length →
      (l = 0 ∨ lt pivot (pre.getD (l - 1) []) = false) →
      (r = pre.length ∨ lt pivot (pre.getD r []) = true) →
      binInsertPos lt pivot pre fuel l r ≤ pre.length ∧
      (binInsertPos lt pivot pre fuel l r = 0 ∨
        lt pivot (pre.getD (binInsertPos lt pivot pre fuel l r - 1) []) = false) ∧
      (binInsertPos lt pivot pre fuel l r = pre.length ∨
        lt pivot (pre.getD (binInsertPos lt pivot pre fuel l r) []) = true) := by
  intro fuel
  induction fuel with
  | zero =>
      intro l r hn hlr hr hpred hsucc
      have hEq : l = r := by omega
      rw [binInsertPos]
      exact ⟨by omega, hpred, hEq ▸ hsucc⟩
  | succ n ih =>
      intro l r hn hlr hr hpred hsucc
      by_cases hlt : l < r
      · rw [binInsertPos, if_pos hlt]
        by_cases hprobe : lt pivot (pre.getD (l + (r - l) / 2) []) = true
        · rw [if_pos hprobe]
          exact ih l (l + (r - l) / 2) (by omega) (by omega) (by omega) hpred
            (Or.inr hprobe)
        · rw [if_neg hprobe]
          have hfalse : lt pivot (pre.getD (l + (r - l) / 2) []) = false :=
            Bool.eq_false_iff.2 hprobe
          exact ih (l + (r - l) / 2 + 1) r (by omega) (by omega) hr
            (Or.inr (by simpa using hfalse)) hsucc
      · rw [binInsertPos, if_neg hlt]
        have hEq : l = r := by omega
        exact ⟨by omega, hpred, hEq ▸ hsucc⟩

theorem chain'_insertAt (R : Record → Record → Prop) (x : Record) :
    ∀ (pre : List Record) (l : Nat), l ≤ pre.length → List.Chain' R pre →
      (l = 0 ∨ R (pre.getD (l - 1) []) x) →
      (l = pre.length ∨ R x (pre.getD l [])) →
      List.Chain' R (pre.take l ++ x :: pre.drop l) := by
  intro pre
  induction pre with
  | nil =>
      intro l hl _ _ _
      have hl0 : l = 0 := by simpa using hl
      subst hl0
      simp
  | cons y ys ih =>
      intro l hl hchain hpred hsucc
      cases l with
      | zero =>
          simp only [List.take_zero, List.nil_append, List.drop_zero]
          refine List.chain'_cons.2 ⟨?_, hchain⟩
          rcases hsucc with h | h
          · simp at h
          · simpa using h
      | succ l' =>
          simp only [List.take_succ_cons, List.drop_succ_cons, List.cons_append]
          have hl' : l' ≤ ys.length := by simpa using hl
          have hchain' : List.Chain' R ys := hchain.tail
          have hpred' : l' = 0 ∨ R (ys.getD (l' - 1) []) x := by
            rcases hpred with h | h
            · exact absurd h (Nat.succ_ne_zero l')
            · cases l' with
              | zero => exact Or.inl rfl
              | succ k =>
                  right
                  simpa using h
          have hsucc' : l' = ys.length ∨ R x (ys.getD l' []) := by
            rcases hsucc with h | h
            · left
              simpa using h
            · right
              simpa using h
          refine List.chain'_cons'.2 ⟨?_, ih l' hl' hchain' hpred' hsucc'⟩
          intro z hz
          cases l' with
          | zero =>
              simp only [List.take_zero, List.nil_append, List.head?_cons,
                Option.mem_def, Option.some.injEq] at hz
              subst hz
              rcases hpred with h | h
              · exact absurd h (Nat.succ_ne_zero 0)
              · simpa using h
          | succ k =>
              cases ys with
              | nil => simp at hl'
              | cons z0 zs =>
                  simp only [List.take_succ_cons, List.cons_append, List.head?_cons,
                    Option.mem_def, Option.some.injEq] at hz
                  subst hz
                  exact (List.chain'_cons.1 hchain).1

theorem binarysortAux_perm (lt : Record → Record → Bool) :
    ∀ (rest pre : List Record), (binarysortAux lt pre rest).Perm (pre ++ rest) := by
  intro rest
  induction rest with
  | nil =>
      intro pre
      simp [binarysortAux]
  | cons pivot rest ih =>
      intro pre
      rw [binarysortAux]
      refine (ih _).trans ?_
      have h2 : (pre.take (binInsertPos lt pivot pre pre.length 0 pre.length) ++
          pivot :: pre.drop (binInsertPos lt pivot pre pre.length 0 pre.length)).Perm
          (pivot :: pre) := by
        have h3 := @List.perm_middle Record pivot
          (pre.take (binInsertPos lt pivot pre pre.length 0 pre.length))
          (pre.drop (binInsertPos lt pivot pre pre.length 0 pre.length))
        simpa [List.take_append_drop] using h3
      refine (List.Perm.append_right rest h2).trans ?_
      exact List.perm_middle.symm

theorem binarysortAux_chain (lt : Record → Record → Bool)
    (hanti : ∀ a b, lt a b = true → lt b a = false) :
    ∀ (rest pre : List Record), List.Chain' (fun u v => lt v u = false) pre →
      List.Chain' (fun u v => lt v u = false) (binarysortAux lt pre rest) := by
  intro rest
  induction rest with
  | nil =>
      intro pre h
      simpa [binarysortAux] using h
  | cons pivot rest ih =>
      intro pre hchain
      rw [binarysortAux]
      apply ih
      have hspec := binInsertPos_spec lt pivot pre pre.length 0 pre.length
        (by omega) (by omega) (le_refl _) (Or.inl rfl) (Or.inl rfl)
      apply chain'_insertAt (fun u v => lt v u = false) pivot pre _ hspec.1 hchain
      · exact hspec.2.1
      · rcases hspec.2.2 with h | h
        · exact Or.inl h
        · exact Or.inr (hanti _ _ h)

theorem takeRunAsc_append (lt : Record → Record → Bool) :
    ∀ (l : List Record) (prev : Record),
      (takeRunAsc lt prev l).1 ++ (takeRunAsc lt prev l).2 = l := by
  intro l
  induction l with
  | nil => intro prev; rfl
  | cons x xs ih =>
      intro prev
      rw [takeRunAsc]
      by_cases h : lt x prev = true
      · simp [h]
      · simp only [Bool.not_eq_true] at h
        simp [h, ih x]

theorem takeRunDesc_append (lt : Record → Record → Bool) :
    ∀ (l : List Record) (prev : Record),
      (takeRunDesc lt prev l).1 ++ (takeRunDesc lt prev l).2 = l := by
  intro l
  induction l with
  | nil => intro prev; rfl
  | cons x xs ih =>
      intro prev
      rw [takeRunDesc]
      by_cases h : lt x prev = true
      · simp [h, ih x]
      · simp only [Bool.not_eq_true] at h
        simp [h]

theorem takeRunAsc_chain (lt : Record → Record → Bool) :
    ∀ (l : List Record) (prev : Record),
      List.Chain' (fun u v => lt v u = false) (prev :: (takeRunAsc lt prev l).1) := by
  intro l
  induction l with
  | nil => intro prev; simp [takeRunAsc]
  | cons x xs ih =>
      intro prev
      rw [takeRunAsc]
      by_cases h : lt x prev = true
      · simp [h]
      · simp only [Bool.not_eq_true] at h
        simp only [h, Bool.false_eq_true, if_false]
        exact List.chain'_cons.2 ⟨h, ih x⟩

theorem takeRunDesc_chain (lt : Record → Record → Bool) :
    ∀ (l : List Record) (prev : Record),
      List.Chain' (fun u v => lt v u = true) (prev :: (takeRunDesc lt prev l).1) := by
  intro l
  induction l with
  | nil => intro prev; simp [takeRunDesc]
  | cons x xs ih =>
      intro prev
      rw [takeRunDesc]
      by_cases h : lt x prev = true
      · simp only [h, if_true]
        exact List.chain'_cons.2 ⟨h, ih x⟩
      · simp only [h, Bool.false_eq_true, if_false]
        simp

theorem cpySorted_perm (lt : Record → Record → Bool) :
    ∀ l : List Record, (cpySorted lt l).Perm l := by
  intro l
  match l with
  | [] => simp [cpySorted]
  | [x] => simp [cpySorted]
  | x0 :: x1 :: rest =>
      rw [cpySorted]
      by_cases h : lt x1 x0 = true
      · rw [if_pos h]
        refine (binarysortAux_perm lt _ _).trans ?_
        refine (List.Perm.append_right _ (List.reverse_perm _)).trans ?_
        rw [List.cons_append, List.cons_append, takeRunDesc_append]
      · rw [if_neg h]
        refine (binarysortAux_perm lt _ _).trans ?_
        rw [List.cons_append, List.cons_append, takeRunAsc_append]

theorem cpySorted_chain (lt : Record → Record → Bool)
    (hanti : ∀ a b, lt a b = true → lt b a = false) :
    ∀ l : List Record, List.Chain' (fun u v => lt v u = false) (cpySorted lt l) := by
  intro l
  match l with
  | [] => simp [cpySorted]
  | [x] => simp [cpySorted]
  | x0 :: x1 :: rest =>
      rw [cpySorted]
      by_cases h : lt x1 x0 = true
      · rw [if_pos h]
        apply binarysortAux_chain lt hanti
        rw [List.chain'_reverse]
        have hdesc : List.Chain' (fun u v => lt v u = true)
            (x0 :: x1 :: (takeRunDesc lt x1 rest).1) :=
          List.chain'_cons.2 ⟨h, takeRunDesc_chain lt rest x1⟩
        exact hdesc.imp (fun a b hab => hanti _ _ hab)
      · rw [if_neg h]
        apply binarysortAux_chain lt hanti
        refine List.chain'_cons.2 ⟨?_, takeRunAsc_chain lt rest x1⟩
        exact Bool.eq_false_iff.2 h

/-! ## Claim theorems -/

/-- Claim C9: with the default ignore-set and substitution table, the key
normalizer `_pep8_key_name` is idempotent — normalizing any raw key twice
yields the same result as normalizing it once.  (Purity/determinism is
inherent to the embedding: the normalizer is a function of its input
alone.) -/
theorem universalis_c9 (k : List Nat) :
    pep8Default (pep8Default k) = pep8Default k := by
  unfold pep8Default pep8KeyName
  rw [if_neg (List.not_mem_nil k), if_neg (List.not_mem_nil _)]
  have hnu : ∀ c ∈ foldCase (applySubst preFormattedKeysN k), isUpperN c = false :=
    foldCase_noUpper _
  rw [applySubst_id_of_noUpper _ _ hnu ?_,
    foldCase_id_of_noUpper _ hnu]
  intro p hp
  simp only [preFormattedKeysN, List.mem_cons, List.not_mem_nil, or_false] at hp
  rcases hp with rfl | rfl | rfl
  · exact ⟨72, [81], by decide, by decide⟩
  · exact ⟨73, [68], by decide, by decide⟩
  · exact ⟨78, [81], by decide, by decide⟩

/-- Claim C2: in `_request`, `api_call_time` is set to the response time
exactly when the HTTP status is 200; on any non-200 status the error is
raised first, so `api_call_time` is unchanged (a burst of failures never
advances the throttle window). -/
theorem universalis_c2 (st : GatewayState) (url : String) (status : Nat) (t : ℚ)
    (body : PyVal) :
    (handleResponse st url status t body).1.apiCallTime =
      (if status = 200 then t else st.apiCallTime) ∧
    (handleResponse st url status t body).2 =
      (if status = 200 then Except.ok body
       else Except.error (RequestFailure.generic status url)) := by
  by_cases h : status = 200
  · subst h
    simp [handleResponse]
  · simp [handleResponse, h]

/-- Claim C3 (evaluating the code): `_request` raises exactly on non-200
statuses, carrying the status and the failing URL — but the raised error
is ALWAYS the generic one: the `status != 200` check precedes the
`status == 400` / `status == 404` branches, which are therefore
unreachable, so 400 and 404 are never classified distinctly (contrary to
the claim). -/
theorem universalis_c3 :
    (∀ (st : GatewayState) (url : String) (status : Nat) (t : ℚ) (body : PyVal),
        status ≠ 200 →
          (handleResponse st url status t body).2 =
            .error (.generic status url)) ∧
    (∀ (st : GatewayState) (url : String) (t : ℚ) (body : PyVal),
        (handleResponse st url 200 t body).2 = .ok body) ∧
    ((handleResponse ⟨0, 20, false⟩ "https://universalis.app/api/v2/Crystal/42" 400 0
        .vnone).2 = .error (.generic 400 "https://universalis.app/api/v2/Crystal/42")) ∧
    ((handleResponse ⟨0, 20, false⟩ "https://universalis.app/api/v2/Crystal/42" 404 0
        .vnone).2 = .error (.generic 404 "https://universalis.app/api/v2/Crystal/42")) ∧
    (∀ (st : GatewayState) (url : String) (status : Nat) (t : ℚ) (body : PyVal),
        (handleResponse st url status t body).2 ≠ .error (.invalidParams status url) ∧
        (handleResponse st url status t body).2 ≠ .error (.invalidWorldItem status url)) := by
  refine ⟨?_, ?_, by rfl, by rfl, ?_⟩
  · intro st url status t body h
    simp [handleResponse, h]
  · intro st url t body
    simp [handleResponse]
  · intro st url status t body
    by_cases h : status = 200
    · subst h
      simp [handleResponse]
    · simp [handleResponse, h]

/-- Witness for C3: a concrete non-200 status produces the generic
error. -/
theorem universalis_c3_witness :
    (handleResponse ⟨0, 20, false⟩ "https://universalis.app/api/v2/x" 500 0 .vnone).2 =
      .error (.generic 500 "https://universalis.app/api/v2/x") :=
  universalis_c3.1 ⟨0, 20, false⟩ "https://universalis.app/api/v2/x" 500 0 .vnone
    (by decide)

/-- Claim C6: with `min_interval = 1000 / max_api_calls` ms, a call whose
elapsed time since the last recorded call is below `min_interval` sleeps
exactly `(min_interval - elapsed) + 100` ms and one at or above it does
not sleep; with the default budget of 20 the dispatch of the second of two
back-to-back calls is at least 150 ms after any dispatch point at or
before the recorded last-call time. -/
theorem universalis_c6 (m : Int) (last cur : ℚ) :
    (cur - last < 1000 / (m : ℚ) →
      throttleSleepMs m last cur = (1000 / (m : ℚ) - (cur - last)) + 100) ∧
    (1000 / (m : ℚ) ≤ cur - last → throttleSleepMs m last cur = 0) ∧
    (m = 20 → cur - last < 1000 / (m : ℚ) →
      ∀ d1 : ℚ, d1 ≤ last → 150 ≤ (cur + throttleSleepMs m last cur) - d1) := by
  refine ⟨?_, ?_, ?_⟩
  · intro h
    simp [throttleSleepMs, h]
  · intro h
    simp [throttleSleepMs, not_lt.2 h]
  · rintro rfl h d1 hd1
    have h20 : ((20 : Int) : ℚ) = 20 := by norm_num
    rw [h20] at h
    have hs : throttleSleepMs 20 last cur = (1000 / (20 : ℚ) - (cur - last)) + 100 := by
      simp only [throttleSleepMs, h20]
      rw [if_pos h]
    rw [hs]
    norm_num
    linarith

/-- Witness for C6: elapsed 10 ms under the default budget sleeps
`(50 - 10) + 100 = 140` ms. -/
theorem universalis_c6_witness :
    (10 : ℚ) - 0 < 1000 / ((20 : Int) : ℚ) ∧
      throttleSleepMs 20 0 10 = (1000 / ((20 : Int) : ℚ) - ((10 : ℚ) - 0)) + 100 :=
  ⟨by norm_num, (universalis_c6 20 0 10).1 (by norm_num)⟩

/-- Claim C10: `UniversalisAPI.__init__` overwrites the process-global
`API_CLASS` with the new instance; every record constructed afterwards
captures the current `API_CLASS` into `_universalis` (`None` exactly when
no client has ever been constructed) — so records silently alias whichever
client was constructed last. -/
theorem universalis_c10 (evs : List RegEvent) :
    ((runReg (evs ++ [RegEvent.mkClient])).registry =
      some (runReg evs).clientCount) ∧
    ((runReg (evs ++ [RegEvent.mkRecord])).records =
      (runReg evs).records ++ [(runReg evs).registry]) ∧
    ((runReg evs).registry = none ↔ RegEvent.mkClient ∉ evs) := by
  refine ⟨?_, ?_, ?_⟩
  · simp [runReg, List.foldl_append, stepReg]
  · simp [runReg, List.foldl_append, stepReg]
  · have main : ∀ (l : List RegEvent) (s : RegState),
        ((l.foldl stepReg s).registry = none ↔
          (s.registry = none ∧ RegEvent.mkClient ∉ l)) := by
      intro l
      induction l with
      | nil => intro s; simp
      | cons e rest ih =>
          intro s
          cases e with
          | mkClient => simp [stepReg, ih]
          | mkRecord => simp [stepReg, ih]
    simpa [runReg] using main evs { clientCount := 0, registry := none, records := [] }

/-- Witness for C10: a record constructed after a client captures that
client. -/
theorem universalis_c10_witness :
    (runReg ([RegEvent.mkRecord, RegEvent.mkClient] ++ [RegEvent.mkRecord])).records =
      (runReg [RegEvent.mkRecord, RegEvent.mkClient]).records ++
        [(runReg [RegEvent.mkRecord, RegEvent.mkClient]).registry] :=
  (universalis_c10 [RegEvent.mkRecord, RegEvent.mkClient]).2.1

/-- Claim C4 (amended): the two AGGREGATE record types yield `None` for
attributes that were not populated — including unpopulated
`listings` / `recent_history` / `last_upload_time` on the current-data
aggregate — with one exception: the history aggregate's `entries` accessor
raises `TypeError` when entries were never assigned (it calls `sorted` on
the `None` fallback).  The two ENTRY record types inherit plain `Generic`,
which has no `__getattribute__` fallback, so reading any unpopulated
attribute on a listing or history entry raises `AttributeError`. -/
theorem universalis_c4 :
    (∀ (flds : Record) (lf rh : Option (List Record)) (name : String),
        name ≠ "listings" → name ≠ "recent_history" → name ≠ "last_upload_time" →
        lookupField flds name = none →
        currentDataGetattr ⟨flds, lf, rh⟩ name = .val .vnone) ∧
    (∀ (flds : Record) (rh : Option (List Record)),
        currentDataGetattr ⟨flds, none, rh⟩ "listings" = .val .vnone) ∧
    (∀ (flds : Record) (lf : Option (List Record)),
        currentDataGetattr ⟨flds, lf, none⟩ "recent_history" = .val .vnone) ∧
    (∀ (flds : Record) (lf rh : Option (List Record)),
        lookupField flds "_last_upload_time" = none →
        currentDataGetattr ⟨flds, lf, rh⟩ "last_upload_time" = .val .vnone) ∧
    (∀ (flds : Record) (ef : Option (List Record)) (name : String),
        name ≠ "entries" → name ≠ "last_upload_time" →
        lookupField flds name = none →
        historyDataGetattr ⟨flds, ef⟩ name = .val .vnone) ∧
    (∀ flds : Record,
        historyDataGetattr ⟨flds, none⟩ "entries" = .raised "TypeError") ∧
    (∀ (r : Record) (name : String), name ≠ "last_review_time" →
        lookupField r name = none →
        currentEntryGetattr r name = .raised "AttributeError") ∧
    (∀ r : Record, lookupField r "_last_review_time" = none →
        currentEntryGetattr r "last_review_time" = .raised "AttributeError") ∧
    (∀ (r : Record) (name : String), name ≠ "timestamp" →
        lookupField r name = none →
        historyEntryGetattr r name = .raised "AttributeError") ∧
    (∀ r : Record, lookupField r "_timestamp" = none →
        historyEntryGetattr r "timestamp" = .raised "AttributeError") := by
  refine ⟨?_, ?_, ?_, ?_, ?_, ?_, ?_, ?_, ?_, ?_⟩
  · intro flds lf rh name h1 h2 h3 h4
    simp [currentDataGetattr, h1, h2, h3, h4]
  · intro flds rh
    simp [currentDataGetattr]
  · intro flds lf
    simp [currentDataGetattr]
  · intro flds lf rh h
    simp [currentDataGetattr, h]
  · intro flds ef name h1 h2 h3
    simp [historyDataGetattr, h1, h2, h3]
  · intro flds
    simp [historyDataGetattr]
  · intro r name h1 h2
    simp [currentEntryGetattr, h1, h2]
  · intro r h
    simp [currentEntryGetattr, h]
  · intro r name h1 h2
    simp [historyEntryGetattr, h1, h2]
  · intro r h
    simp [historyEntryGetattr, h]

/-- Witness for C4: an empty current-data aggregate yields `None` for
`world_name`; an empty history aggregate raises on `entries`; an entry
record with only `hq` raises on `world_name`. -/
theorem universalis_c4_witness :
    currentDataGetattr ⟨[], none, none⟩ "world_name" = .val .vnone ∧
    historyDataGetattr ⟨[], none⟩ "entries" = .raised "TypeError" ∧
    currentEntryGetattr [("hq", PyVal.vbool true)] "world_name" =
      .raised "AttributeError" := by
  exact ⟨universalis_c4.1 [] none none "world_name" (by decide) (by decide) (by decide) rfl,
    universalis_c4.2.2.2.2.2.1 [],
    universalis_c4.2.2.2.2.2.2.1 [("hq", PyVal.vbool true)] "world_name" (by decide) rfl⟩

/-- Counterexample to C4 as stated: a listing ENTRY record built from a
payload that populates only `hq` raises `AttributeError` — not `None` —
when the unpopulated `world_name` attribute is read (the
`__getattribute__` fallback lives on `GenericData`, which the entry
classes do not inherit). -/
theorem universalis_c4_cex :
    currentEntryGetattr (buildCurrentEntry [("hq", PyVal.vbool true)]) "world_name" =
      .raised "AttributeError" ∧
    AttrResult.raised "AttributeError" ≠ AttrResult.val PyVal.vnone := by
  constructor
  · rfl
  · intro h
    exact AttrResult.noConfusion h

/-- Claim C5 (amended): an integer value of a timestamp-like field is
converted — seconds-since-epoch for the entry-level `timestamp` /
`last_review_time`, milliseconds (divided by 1000 first) for the
aggregate-level `last_upload_time` — and the raw integer is stored
unchanged when the conversion fails; but a NON-integer value is not
retained: the `isinstance(value, int)` guard makes the setter perform no
assignment at all, so the field is left absent (a subsequent read raises
`AttributeError` on an entry record, and yields `None` on the
aggregate). -/
theorem universalis_c5 (r : Record) (n : Int) (s : String) :
    (tsInRange (n : ℚ) = true →
      lookupField (timestampSet r (.vint n)) "_timestamp" = some (.vdt (n : ℚ))) ∧
    (tsInRange (n : ℚ) = false →
      lookupField (timestampSet r (.vint n)) "_timestamp" = some (.vint n)) ∧
    (tsInRange (n : ℚ) = true →
      lookupField (lastReviewTimeSet r (.vint n)) "_last_review_time" =
        some (.vdt (n : ℚ))) ∧
    (tsInRange ((n : ℚ) / 1000) = true →
      lookupField (lastUploadTimeSet r (.vint n)) "_last_upload_time" =
        some (.vdt ((n : ℚ) / 1000))) ∧
    (tsInRange ((n : ℚ) / 1000) = false →
      lookupField (lastUploadTimeSet r (.vint n)) "_last_upload_time" =
        some (.vint n)) ∧
    (timestampSet r (.vstr s) = r) ∧
    (lastUploadTimeSet r (.vstr s) = r) ∧
    (lookupField r "_timestamp" = none →
      historyEntryGetattr (timestampSet r (.vstr s)) "timestamp" =
        .raised "AttributeError") := by
  refine ⟨?_, ?_, ?_, ?_, ?_, rfl, rfl, ?_⟩
  · intro h
    simp [timestampSet, fromtimestampOpt, h, lookupField_setField_self]
  · intro h
    simp [timestampSet, fromtimestampOpt, h, lookupField_setField_self]
  · intro h
    simp [lastReviewTimeSet, fromtimestampOpt, h, lookupField_setField_self]
  · intro h
    simp [lastUploadTimeSet, fromtimestampOpt, h, lookupField_setField_self]
  · intro h
    simp [lastUploadTimeSet, fromtimestampOpt, h, lookupField_setField_self]
  · intro h
    show historyEntryGetattr r "timestamp" = _
    simp [historyEntryGetattr, h]

/-- Witness for C5 at the spec's scenario values: `timestamp: 1700000000`
converts to the calendar timestamp of that unix-seconds value, and a
non-integer `"bad"` leads to an `AttributeError` on a later read rather
than being retained. -/
theorem universalis_c5_witness :
    lookupField (timestampSet [] (.vint 1700000000)) "_timestamp" =
      some (.vdt (((1700000000 : Int) : ℚ))) ∧
    historyEntryGetattr (timestampSet [] (.vstr "bad")) "timestamp" =
      .raised "AttributeError" := by
  exact ⟨(universalis_c5 [] 1700000000 "bad").1 (by decide),
    (universalis_c5 [] 1700000000 "bad").2.2.2.2.2.2.2 rfl⟩

/-- Counterexample to C5 as stated: building a history entry from
`{"timestamp": "bad"}` does NOT retain the string — no `_timestamp` field
is stored at all, and reading `timestamp` raises `AttributeError` instead
of yielding the raw `"bad"`. -/
theorem universalis_c5_cex :
    lookupField (buildHistoryEntry [("timestamp", PyVal.vstr "bad")]) "_timestamp" =
      none ∧
    historyEntryGetattr (buildHistoryEntry [("timestamp", PyVal.vstr "bad")])
      "timestamp" = .raised "AttributeError" ∧
    AttrResult.raised "AttributeError" ≠ AttrResult.val (PyVal.vstr "bad") := by
  refine ⟨rfl, rfl, ?_⟩
  intro h
  exact AttrResult.noConfusion h

set_option maxRecDepth 100000 in
/-- Claim C7 (amended): at assignment time the stored `listings` and
`recent_history` lists are CPython's sort (comparing with `__lt__` only)
of the entries built from the mapping elements, non-mapping elements
dropped.  For payloads of fewer than 64 entries — the regime in which
CPython's sort is exactly run detection plus binary insertion and the
embedding is probe-exact — the stored list is a permutation of the built
entries with no adjacent pair inverted under the entry comparator.
Because the comparator is not a strict weak order (entries with differing
hq flags are incomparable), the list need not be globally ascending by
review time (see the counterexample), and entries sharing the same hq
flag and time need NOT keep their arrival order: the final conjunct
evaluates the eight-listing probe payload, whose two hq-`False`/time-5
entries (quantity tags 5 and 7) come out in the order 7 before 5.  The
history aggregate keeps its stored `_entries` list unsorted (it stores
the built entries in arrival order) and each read of the accessor returns
a freshly sorted copy — a permutation of the stored list with no adjacent
inversion; the accessor is a pure function of the record, so the stored
list is not mutated by a read.  (The sub-64 hypotheses delimit the regime
where the sort model and the program coincide; the model-level properties
hold of the model unconditionally.) -/
theorem universalis_c7 (xs ys zs : List PyVal) :
    (xs.length < 64 →
      (listingsAssign xs).Perm ((xs.filterMap pyAsDict).map buildCurrentEntry) ∧
      List.Chain' (fun u v => currentLt v u = false) (listingsAssign xs)) ∧
    (ys.length < 64 →
      (recentHistoryAssign ys).Perm ((ys.filterMap pyAsDict).map buildHistoryEntry) ∧
      List.Chain' (fun u v => historyLt v u = false) (recentHistoryAssign ys)) ∧
    (zs.length < 64 →
      historyEntriesAssign zs = (zs.filterMap pyAsDict).map buildHistoryEntry ∧
      (historyEntriesGet (historyEntriesAssign zs)).Perm (historyEntriesAssign zs) ∧
      List.Chain' (fun u v => historyLt v u = false)
        (historyEntriesGet (historyEntriesAssign zs))) ∧
    ((listingsAssign timsortProbePayload).map (fun e => lookupField e "quantity") =
      [some (.vint 1), some (.vint 0), some (.vint 2), some (.vint 7), some (.vint 3),
       some (.vint 4), some (.vint 5), some (.vint 6)]) := by
  refine ⟨fun _ => ⟨cpySorted_perm _ _, cpySorted_chain _ currentLt_antisymm _⟩,
    fun _ => ⟨cpySorted_perm _ _, cpySorted_chain _ historyLt_antisymm _⟩,
    fun _ => ⟨rfl, cpySorted_perm _ _, cpySorted_chain _ historyLt_antisymm _⟩,
    by rfl⟩

set_option maxRecDepth 100000 in
/-- Witness for C7: a concrete two-listing payload (below the 64-entry
threshold) is stored as a permutation of its built entries with no
adjacent comparator inversion. -/
theorem universalis_c7_witness :
    ([PyVal.vdict [("hq", PyVal.vbool true), ("lastReviewTime", PyVal.vint 100)],
      PyVal.vdict [("hq", PyVal.vbool false),
        ("lastReviewTime", PyVal.vint 50)]].length < 64) ∧
    ((listingsAssign
      [PyVal.vdict [("hq", PyVal.vbool true), ("lastReviewTime", PyVal.vint 100)],
       PyVal.vdict [("hq", PyVal.vbool false), ("lastReviewTime", PyVal.vint 50)]]).Perm
      (([PyVal.vdict [("hq", PyVal.vbool true), ("lastReviewTime", PyVal.vint 100)],
         PyVal.vdict [("hq", PyVal.vbool false),
           ("lastReviewTime", PyVal.vint 50)]].filterMap pyAsDict).map buildCurrentEntry) ∧
      List.Chain' (fun u v => currentLt v u = false) (listingsAssign
        [PyVal.vdict [("hq", PyVal.vbool true), ("lastReviewTime", PyVal.vint 100)],
         PyVal.vdict [("hq", PyVal.vbool false), ("lastReviewTime", PyVal.vint 50)]])) :=
  ⟨by decide,
   (universalis_c7
      [PyVal.vdict [("hq", PyVal.vbool true), ("lastReviewTime", PyVal.vint 100)],
       PyVal.vdict [("hq", PyVal.vbool false), ("lastReviewTime", PyVal.vint 50)]]
      [] []).1 (by decide)⟩

set_option maxRecDepth 100000 in
/-- Counterexample to C7 as stated: two listings with differing hq flags
are incomparable under `__lt__`, so the stable sort leaves them in arrival
order — here review times 100 then 50 — and the stored list is NOT sorted
ascending by effective review time. -/
theorem universalis_c7_cex :
    specAscByReviewTime (listingsAssign
      [PyVal.vdict [("hq", PyVal.vbool true), ("lastReviewTime", PyVal.vint 100)],
       PyVal.vdict [("hq", PyVal.vbool false), ("lastReviewTime", PyVal.vint 50)]]) =
      false := by
  rfl

/-- Claim C8: listing entries compare equal exactly when their hq flags
match; a listing entry is less than another exactly when the flags match,
both review times are timestamps and the first is strictly earlier — any
comparison involving a non-timestamp review time is `False`, never
less-than.  History entries compare equal exactly when hq flag AND
price-per-unit match, and less-than exactly when the flags match and both
timestamps are timestamps with the first strictly earlier. -/
theorem universalis_c8 (a b : Record) (x y : Bool)
    (hax : lookupField a "hq" = some (.vbool x))
    (hby : lookupField b "hq" = some (.vbool y)) :
    (currentEq a b = true ↔ x = y) ∧
    (currentLt a b = true ↔ (x = y ∧ ∃ ta tb : ℚ,
      lookupField a "_last_review_time" = some (.vdt ta) ∧
      lookupField b "_last_review_time" = some (.vdt tb) ∧ ta < tb)) ∧
    (∀ v : PyVal, lookupField a "_last_review_time" = some v →
      (∀ t : ℚ, v ≠ .vdt t) → currentLt a b = false ∧ currentLt b a = false) ∧
    (∀ pa pb : Int, lookupField a "price_per_unit" = some (.vint pa) →
      lookupField b "price_per_unit" = some (.vint pb) →
      (historyEq a b = true ↔ (x = y ∧ pa = pb))) ∧
    (historyLt a b = true ↔ (x = y ∧ ∃ ta tb : ℚ,
      lookupField a "_timestamp" = some (.vdt ta) ∧
      lookupField b "_timestamp" = some (.vdt tb) ∧ ta < tb)) := by
  have hpy : pyEqVal (.vbool x) (.vbool y) = decide (x = y) := rfl
  refine ⟨?_, ?_, ?_, ?_, ?_⟩
  · unfold currentEq
    rw [hax, hby]
    show pyEqVal (.vbool x) (.vbool y) = true ↔ x = y
    rw [hpy]
    simp
  · unfold currentLt
    rw [hax, hby]
    show (pyEqVal (.vbool x) (.vbool y) &&
        bothDtLt (lookupField a "_last_review_time")
          (lookupField b "_last_review_time")) = true ↔ _
    rw [hpy]
    simp only [Bool.and_eq_true, decide_eq_true_eq, bothDtLt_iff]
  · intro v hv hnd
    constructor
    · cases hc : currentLt a b with
      | false => rfl
      | true =>
          obtain ⟨ta, tb, ha2, hb2, hlt⟩ := currentLt_times a b hc
          rw [hv] at ha2
          exact absurd (by injection ha2) (hnd ta)
    · cases hc : currentLt b a with
      | false => rfl
      | true =>
          obtain ⟨tb, ta, hb2, ha2, hlt⟩ := currentLt_times b a hc
          rw [hv] at ha2
          exact absurd (by injection ha2) (hnd ta)
  · intro pa pb hpa hpb
    unfold historyEq
    rw [hax, hby, hpa, hpb]
    show (pyEqVal (.vbool x) (.vbool y) && pyEqVal (.vint pa) (.vint pb)) = true ↔ _
    have hpq : pyEqVal (.vint pa) (.vint pb) = decide (pa = pb) := rfl
    rw [hpy, hpq]
    simp
  · unfold historyLt
    rw [hax, hby]
    show (pyEqVal (.vbool x) (.vbool y) &&
        bothDtLt (lookupField a "_timestamp") (lookupField b "_timestamp")) = true ↔ _
    rw [hpy]
    simp only [Bool.and_eq_true, decide_eq_true_eq, bothDtLt_iff]

/-- Witness for C8: two concrete listing entries with matching hq flags and
review times 10 < 20 compare equal and less-than. -/
theorem universalis_c8_witness :
    (currentEq [("hq", PyVal.vbool true), ("_last_review_time", PyVal.vdt 10)]
        [("hq", PyVal.vbool true), ("_last_review_time", PyVal.vdt 20)] = true ↔
      true = true) ∧
    (currentLt [("hq", PyVal.vbool true), ("_last_review_time", PyVal.vdt 10)]
        [("hq", PyVal.vbool true), ("_last_review_time", PyVal.vdt 20)] = true ↔
      (true = true ∧ ∃ ta tb : ℚ,
        lookupField [("hq", PyVal.vbool true), ("_last_review_time", PyVal.vdt 10)]
          "_last_review_time" = some (.vdt ta) ∧
        lookupField [("hq", PyVal.vbool true), ("_last_review_time", PyVal.vdt 20)]
          "_last_review_time" = some (.vdt tb) ∧ ta < tb)) := by
  exact ⟨(universalis_c8 [("hq", PyVal.vbool true), ("_last_review_time", PyVal.vdt 10)]
      [("hq", PyVal.vbool true), ("_last_review_time", PyVal.vdt 20)] true true rfl rfl).1,
    (universalis_c8 [("hq", PyVal.vbool true), ("_last_review_time", PyVal.vdt 10)]
      [("hq", PyVal.vbool true), ("_last_review_time", PyVal.vdt 20)] true true rfl rfl).2.1⟩

set_option maxRecDepth 100000 in
/-- Claim C1 (evaluating the code): `get_bulk_current_data` does issue
exactly `ceil(n/100)` requests (so 2 for 150 IDs), but the loop joins the
ENTIRE sanitized ID list into every URL — its index is unused — so for 150
IDs both request URLs are identical and each carries all 150 comma-joined
IDs, not the 100/50 split of its own batch. -/
theorem universalis_c1 :
    (∀ (base world : String) (items : List (Int ⊕ String)) (nl ne hq : Int)
        (trim : Bool) (mf : String),
        (getBulkCurrentDataUrls base world items nl ne hq trim mf).length =
          (items.length + 99) / 100) ∧
    ((getBulkCurrentDataUrls "https://universalis.app/api/v2" "Crystal"
        ((List.range 150).map (fun n => Sum.inl (Int.ofNat (n + 1)))) 10 10 0 false
        "").length = 2) ∧
    (∃ u : String, getBulkCurrentDataUrls "https://universalis.app/api/v2" "Crystal"
        ((List.range 150).map (fun n => Sum.inl (Int.ofNat (n + 1)))) 10 10 0 false
        "" = [u, u]) := by
  refine ⟨?_, by rfl, ?_⟩
  · intro base world items nl ne hq trim mf
    simp only [getBulkCurrentDataUrls, pyRange0, sanitizeItems, List.length_map,
      List.length_range]
    omega
  · exact ⟨(getBulkCurrentDataUrls "https://universalis.app/api/v2" "Crystal"
      ((List.range 150).map (fun n => Sum.inl (Int.ofNat (n + 1)))) 10 10 0 false
      "").headI, by rfl⟩
